import Mathlib

/-!
Shallow embedding of the column-resize engine of
`app/code/Magento/PageBuilder/view/adminhtml/web/ts/js/content-type/column-group/resizing.ts`.

Numbers are modelled as rationals (`ℚ`).  JavaScript's `Math.round` and
`Number.prototype.toFixed` both round halves toward positive infinity, which is
`⌊x + 1/2⌋` here.  `parseFloat` applied to the output of `toFixed` (or to a
stored `"<q>%"` width string) recovers the numeric value, so those string
round-trips are the identity in the model.  A row's columns are represented by
the list of their stored widths; a column is addressed by its index in that
list, and `Option` models JavaScript `null`/`undefined` results.
-/

namespace Resizing

/-- JS `Math.round`: round half toward positive infinity. -/
def jsRound (q : ℚ) : ℚ := ((⌊q + 1/2⌋ : ℤ) : ℚ)

/-- JS `(q).toFixed(f)` followed by `parseFloat`: round to `f` decimal places,
half toward positive infinity. -/
def jsToFixed (f : ℕ) (q : ℚ) : ℚ := ((⌊q * 10 ^ f + 1/2⌋ : ℤ) : ℚ) / 10 ^ f

/-- Model of `getRoundedColumnWidth` (resizing.ts:243-247): return the width to 8 decimal
places if it is not a whole number, otherwise to 0 decimal places. -/
def getRoundedColumnWidth (width : ℚ) : ℚ :=
  jsToFixed (if jsRound width ≠ width then 8 else 0) width

/-- The `percentage` candidate computed for loop index `i` of
`getAcceptedColumnWidth` (resizing.ts:50-52): `parseFloat((100 / gridSize *
i).toFixed(Math.round(100 / gridSize * i) !== 100 / gridSize * i ? 8 : 0))`,
the same toFixed expression as `getRoundedColumnWidth`. -/
def gridFraction (g i : ℕ) : ℚ := getRoundedColumnWidth (100 / (g : ℚ) * i)

/-- The loop of `getAcceptedColumnWidth` (resizing.ts:49-58): `i` runs from
`gridSize` down to `1`; the first candidate within `±0.1` of the requested
width is returned, `0` if none matches. -/
def acceptedLoop (g : ℕ) (width : ℚ) : ℕ → ℚ
  | 0 => 0
  | i + 1 =>
    let percentage := gridFraction g (i + 1)
    if percentage - 1/10 < width ∧ width < percentage + 1/10 then percentage
    else acceptedLoop g width i

/-- Model of `getAcceptedColumnWidth` (resizing.ts:46-60). -/
def getAcceptedColumnWidth (g : ℕ) (width : ℚ) : ℚ := acceptedLoop g width g

/-- Model of `getSmallestColumnWidth` (resizing.ts:33-38): snap `100 / gridSize`,
rendered by the same whole-number-or-8-decimals `toFixed` rule, through
`getAcceptedColumnWidth`. -/
def getSmallestColumnWidth (g : ℕ) : ℚ :=
  getAcceptedColumnWidth g (getRoundedColumnWidth (100 / (g : ℚ)))

/-- Model of `getColumnWidth` (resizing.ts:68-70): the snapped stored width of the
column at `column` in the row's width list. -/
def getColumnWidth (g : ℕ) (widths : List ℚ) (column : ℕ) : ℚ :=
  getAcceptedColumnWidth g (widths.getD column 0)

/-- Model of `updateColumnWidth` (resizing.ts:407-412): write the width back to the
column's store (`parseFloat(width) + "%"`, re-read by `parseFloat`, is the
identity on the numeric value). -/
def updateColumnWidth (widths : List ℚ) (column : ℕ) (width : ℚ) : List ℚ :=
  widths.set column width

/-- Model of `resizeColumn` (resizing.ts:364-399).  `shrinkableColumn` is the optional
donor column.  In the source, `difference` is the non-empty string produced by
`toFixed(8)` and is therefore always truthy, so the guard
`if (difference && shrinkableColumn)` tests only the presence of the donor.
When the donor shrink is rejected, `allowedToShrink` becomes `false` and the
final `updateColumnWidth(column, width)` is skipped as well. -/
def resizeColumn (g : ℕ) (widths : List ℚ) (column : ℕ) (width : ℚ)
    (shrinkableColumn : Option ℕ) : List ℚ :=
  let current := getColumnWidth g widths column
  let difference := jsToFixed 8 (width - current)
  if current = width ∨ width < getSmallestColumnWidth g then widths
  else
    match shrinkableColumn with
    | some s =>
      let currentShrinkable := getColumnWidth g widths s
      let shrinkableSize := getAcceptedColumnWidth g (currentShrinkable + -difference)
      if currentShrinkable = shrinkableSize ∨ shrinkableSize < getSmallestColumnWidth g then
        widths
      else
        updateColumnWidth (updateColumnWidth widths s shrinkableSize) column width
    | none => updateColumnWidth widths column width

/-- Model of `getAdjacentColumn` (resizing.ts:89-97): the element at
`currentIndex + direction` of the row's child list, `none` (JS `null`) when
that index is out of bounds (JS indexing yields `undefined` there). -/
def getAdjacentColumn {α : Type} (children : List α) (currentIndex : ℕ)
    (direction : ℤ) : Option α :=
  if 0 ≤ (currentIndex : ℤ) + direction then
    children.get? ((currentIndex : ℤ) + direction).toNat
  else none

/-- The `"left" | "right"` union type used for search directions. -/
inductive Direction
  | left
  | right
deriving DecidableEq

/-- Model of `findShrinkableColumnForResize` (resizing.ts:201-219).  Columns are
represented by their indices in the row, so `parentChildren` is
`List.range widths.length`; `slice(currentIndex + 1)` is `drop`, and
`slice(0).reverse().slice(length - currentIndex)` is `drop 0`, `reverse`,
then `drop (length - currentIndex)`.  `find?` models `Array.prototype.find`. -/
def findShrinkableColumnForResize (g : ℕ) (widths : List ℚ) (currentIndex : ℕ)
    (direction : Direction) : Option ℕ :=
  let parentChildren := List.range widths.length
  let searchArray : List ℕ :=
    match direction with
    | .right => parentChildren.drop (currentIndex + 1)
    | .left => ((parentChildren.drop 0).reverse).drop (parentChildren.length - currentIndex)
  searchArray.find? fun i => decide (getSmallestColumnWidth g < getColumnWidth g widths i)

/-- Modelled from the spec: the per-gesture geometry snapshot of one column
(`element.offset().left`, `parseInt(element.css("margin-left"))`,
`element.outerWidth(true)`); the DOM accessors live outside this repository. -/
structure ColumnGeometry where
  offsetLeft : ℚ
  marginLeft : ℤ
  outerWidth : ℚ
deriving DecidableEq, Inhabited

/-- Modelled from the spec: the cached group geometry (`GroupPositionCache` of
`preview.ts`, which is not part of the sources); only the `left` and
`outerWidth` fields are consumed by the resize engine. -/
structure GroupPositionCache where
  left : ℚ
  outerWidth : ℚ
deriving DecidableEq, Inhabited

/-- One element of the `ColumnWidth[]` candidate list (`preview.ts` interface,
fields as constructed at resizing.ts:146-153 and 162-169). -/
structure ColumnWidth where
  forColumn : String
  name : String
  position : ℤ
  width : ℚ
deriving DecidableEq, Inhabited

/-- Model of `MaxGhostWidth` (`preview.ts` interface): the two bounding pixel
positions. -/
structure MaxGhostWidth where
  left : ℤ
  right : ℤ
deriving DecidableEq, Inhabited

/-- Model of `determineColumnWidths` (resizing.ts:119-173).  The dragged column is
`children[columnIndex]`; the source dereferences
`this.getAdjacentColumn(column, "+1")` without a null check, so a missing
right neighbour makes the call undefined, modelled by `none`.  The two `for`
loops with `continue` become descending/ascending ranges with `filterMap`. -/
def determineColumnWidths (g : ℕ) (children : List ColumnGeometry)
    (columnIndex : ℕ) (groupPosition : GroupPositionCache) :
    Option (List ColumnWidth) :=
  let singleColumnWidth := groupPosition.outerWidth / (g : ℚ)
  match getAdjacentColumn children columnIndex 1 with
  | none => none
  | some adjacentColumn =>
    let column := children.getD columnIndex default
    let columnLeft := column.offsetLeft - (column.marginLeft : ℚ)
    let adjacentRightPosition := adjacentColumn.offsetLeft + adjacentColumn.outerWidth
    let columnsToRight := children.length - (columnIndex + 1)
    let leftMaxWidthFromChildren :=
      groupPosition.left + groupPosition.outerWidth
        - (columnsToRight : ℚ) * singleColumnWidth + 10
    let rightMaxWidthFromChildren :=
      groupPosition.left
        + ((children.length - columnsToRight : ℕ) : ℚ) * singleColumnWidth - 10
    let leftCandidates := ((List.range g).reverse.map (· + 1)).filterMap fun (i : ℕ) =>
      let position := ⌊columnLeft + singleColumnWidth * (i : ℚ) + 1/2⌋
      if position > ⌊leftMaxWidthFromChildren + 1/2⌋ then none
      else some
        { forColumn := "left"
          name := toString i ++ "/" ++ toString g
          position := position
          width := getRoundedColumnWidth (100 / (g : ℚ) * i) }
    let rightCandidates := ((List.range (g - 1)).map (· + 1)).filterMap fun (i : ℕ) =>
      let position := ⌊adjacentRightPosition - (i : ℚ) * singleColumnWidth⌋
      if position < ⌊rightMaxWidthFromChildren⌋ then none
      else some
        { forColumn := "right"
          name := toString i ++ "/" ++ toString g
          position := position
          width := getRoundedColumnWidth (100 / (g : ℚ) * i) }
    some (leftCandidates ++ rightCandidates)

/-- Model of `determineMaxGhostWidth` (resizing.ts:181-192): first `"left"` candidate
and last `"right"` candidate.  When either filtered list is empty the source
reads `.position` of `undefined` and throws; that failure is `none`. -/
def determineMaxGhostWidth (columnWidths : List ColumnWidth) : Option MaxGhostWidth :=
  let leftColumns := columnWidths.filter fun width => width.forColumn = "left"
  let rightColumns := columnWidths.filter fun width => width.forColumn = "right"
  match leftColumns.head?, rightColumns.getLast? with
  | some l, some r => some { left := l.position, right := r.position }
  | _, _ => none

/-- One record of the per-gesture resize history (`ResizeHistory` of
`preview.ts`, described in the spec): the column chosen for adjustment
(a column index, `none` when the recorded search found no column) and which
column of the pair is modified. -/
structure ResizeHistoryItem where
  adjustedColumn : Option ℕ
  modifyColumnInPair : String
deriving DecidableEq, Inhabited

/-- Modelled from the spec: the two per-direction sequences of history
records, appended to at the end on each directional decision (most recent
record last). -/
structure ResizeHistory where
  left : List ResizeHistoryItem
  right : List ResizeHistoryItem
deriving DecidableEq, Inhabited

/-- Model of `determineAdjustedColumn` (resizing.ts:299-340), returning
`[adjustedColumn, modifyColumnInPair, usedHistory]`.  JavaScript
`Array.prototype.reverse` mutates the array in place and returns it, so the
source's two consecutive `history.left.reverse()[0]` reads see *different*
arrays: the first sees the reversed list, the second reverses it again and
therefore sees the original order; both `[0]` accesses are modelled by
`headI`, which the `length > 0` guard keeps within bounds.  `usedHistory`
starts out `undefined` (`none`). -/
def determineAdjustedColumn (g : ℕ) (widths : List ℚ) (currentPos : ℚ)
    (columnIndex : ℕ) (geometry : ColumnGeometry) (history : ResizeHistory) :
    Option ℕ × String × Option String :=
  let resizeColumnLeft := geometry.offsetLeft - (geometry.marginLeft : ℚ)
  let resizeColumnWidth := geometry.outerWidth
  let resizeHandlePosition := resizeColumnLeft + resizeColumnWidth
  if currentPos ≥ resizeHandlePosition then
    if 0 < history.left.length then
      (((history.left.reverse).headI).adjustedColumn,
       ((history.left.reverse.reverse).headI).modifyColumnInPair,
       some "left")
    else
      (findShrinkableColumnForResize g widths columnIndex Direction.right, "left", none)
  else
    if getColumnWidth g widths columnIndex ≤ getSmallestColumnWidth g then
      let adjustedColumn := findShrinkableColumnForResize g widths columnIndex Direction.left
      (adjustedColumn, if adjustedColumn.isSome then "right" else "left", none)
    else if 0 < history.right.length then
      (((history.right.reverse).headI).adjustedColumn,
       ((history.right.reverse.reverse).headI).modifyColumnInPair,
       some "right")
    else
      (getAdjacentColumn (List.range widths.length) columnIndex 1, "left", none)

/-! ### List helpers -/

lemma getD_set (l : List ℚ) (j i : ℕ) (v : ℚ) :
    (l.set j v).getD i 0 = if j = i ∧ j < l.length then v else l.getD i 0 := by
  induction l generalizing i j with
  | nil => simp
  | cons a t ih =>
    cases j with
    | zero =>
      cases i with
      | zero => simp
      | succ i => simp
    | succ j =>
      cases i with
      | zero => simp
      | succ i =>
        simpa [List.set, List.getD, Nat.succ_lt_succ_iff] using ih j i

lemma sum_set_getD (l : List ℚ) (j : ℕ) (v : ℚ) (h : j < l.length) :
    (l.set j v).sum = l.sum - l.getD j 0 + v := by
  induction l generalizing j with
  | nil => simp at h
  | cons a t ih =>
    cases j with
    | zero => simp [List.set]; ring
    | succ j =>
      have hj : j < t.length := by simpa using h
      simp [List.set, List.getD, ih j hj]
      ring

/-! ### Rounding and snapping lemmas -/

lemma jsToFixed_bounds (f : ℕ) (q : ℚ) :
    q - 1 / (2 * 10 ^ f) < jsToFixed f q ∧ jsToFixed f q ≤ q + 1 / (2 * 10 ^ f) := by
  have hpow : (0 : ℚ) < 10 ^ f := by positivity
  have h1 : ((⌊q * 10 ^ f + 1/2⌋ : ℤ) : ℚ) ≤ q * 10 ^ f + 1/2 := Int.floor_le _
  have h2 : q * 10 ^ f + 1/2 < ((⌊q * 10 ^ f + 1/2⌋ : ℤ) : ℚ) + 1 :=
    Int.lt_floor_add_one _
  rw [jsToFixed]
  constructor
  · rw [lt_div_iff₀ hpow]
    have e : (q - 1 / (2 * 10 ^ f)) * 10 ^ f = q * 10 ^ f - 1/2 := by
      field_simp
      ring
    rw [e]
    linarith
  · rw [div_le_iff₀ hpow]
    have e : (q + 1 / (2 * 10 ^ f)) * 10 ^ f = q * 10 ^ f + 1/2 := by
      field_simp
      ring
    rw [e]
    exact h1

lemma jsToFixed_eq_self (f : ℕ) (q : ℚ) (n : ℤ) (h : q * 10 ^ f = n) :
    jsToFixed f q = q := by
  have hfloor : ⌊q * 10 ^ f + 1/2⌋ = n := by
    rw [h, Int.floor_int_add]
    norm_num
  have hpow : (10 : ℚ) ^ f ≠ 0 := by positivity
  rw [jsToFixed, hfloor, ← h, mul_div_cancel_right₀ _ hpow]

lemma getRoundedColumnWidth_eq_self (q : ℚ) (n : ℤ) (h : q * 10 ^ 8 = n) :
    getRoundedColumnWidth q = q := by
  rw [getRoundedColumnWidth]
  split_ifs with hr
  · exact jsToFixed_eq_self 8 q n h
  · have hq : q = ((⌊q + 1/2⌋ : ℤ) : ℚ) := (not_not.mp hr).symm
    exact jsToFixed_eq_self 0 q ⌊q + 1/2⌋ (by rw [pow_zero, mul_one]; exact hq)

lemma getRoundedColumnWidth_bounds (q : ℚ) :
    q - 1 / (2 * 10 ^ 8) < getRoundedColumnWidth q ∧
      getRoundedColumnWidth q ≤ q + 1 / (2 * 10 ^ 8) := by
  rw [getRoundedColumnWidth]
  split_ifs with hr
  · exact jsToFixed_bounds 8 q
  · have hq : q = ((⌊q + 1/2⌋ : ℤ) : ℚ) := (not_not.mp hr).symm
    have : jsToFixed 0 q = q :=
      jsToFixed_eq_self 0 q ⌊q + 1/2⌋ (by rw [pow_zero, mul_one]; exact hq)
    rw [this]
    constructor <;> norm_num

lemma gridFraction_bounds (g i : ℕ) :
    100 / (g : ℚ) * i - 1 / (2 * 10 ^ 8) < gridFraction g i ∧
      gridFraction g i ≤ 100 / (g : ℚ) * i + 1 / (2 * 10 ^ 8) :=
  getRoundedColumnWidth_bounds _

lemma gridFraction_int (g i : ℕ) : ∃ n : ℤ, gridFraction g i * 10 ^ 8 = n := by
  rw [gridFraction, getRoundedColumnWidth]
  split_ifs with hr
  · refine ⟨⌊100 / (g : ℚ) * i * 10 ^ 8 + 1/2⌋, ?_⟩
    rw [jsToFixed]
    field_simp
  · refine ⟨⌊100 / (g : ℚ) * i + 1/2⌋ * 10 ^ 8, ?_⟩
    rw [jsToFixed, pow_zero, mul_one, div_one]
    push_cast
    ring

lemma jsToFixed_gridFraction_sub (g a b : ℕ) :
    jsToFixed 8 (gridFraction g a - gridFraction g b) =
      gridFraction g a - gridFraction g b := by
  obtain ⟨na, ha⟩ := gridFraction_int g a
  obtain ⟨nb, hb⟩ := gridFraction_int g b
  refine jsToFixed_eq_self 8 _ (na - nb) ?_
  rw [sub_mul, ha, hb]
  push_cast
  ring

lemma gridFraction_1000 (i : ℕ) : gridFraction 1000 i = (i : ℚ) / 10 := by
  have hx : 100 / ((1000 : ℕ) : ℚ) * i = (i : ℚ) / 10 := by
    push_cast
    ring
  rw [gridFraction, hx]
  exact getRoundedColumnWidth_eq_self _ ((i : ℤ) * 10 ^ 7)
    (by push_cast; ring)

/-- Unfolding equation for `acceptedLoop` usable on numeric literals. -/
lemma acceptedLoop_eval (g : ℕ) (width : ℚ) (n : ℕ) :
    acceptedLoop g width n =
      if n = 0 then 0
      else if gridFraction g n - 1/10 < width ∧ width < gridFraction g n + 1/10
        then gridFraction g n
      else acceptedLoop g width (n - 1) := by
  cases n with
  | zero => simp [acceptedLoop]
  | succ i => simp [acceptedLoop]

lemma acceptedLoop_eq_of_hit (g : ℕ) (w : ℚ) (k : ℕ) (hk : 1 ≤ k)
    (hit : gridFraction g k - 1/10 < w ∧ w < gridFraction g k + 1/10) :
    ∀ m, k ≤ m →
      (∀ j, k < j → j ≤ m →
        ¬(gridFraction g j - 1/10 < w ∧ w < gridFraction g j + 1/10)) →
      acceptedLoop g w m = gridFraction g k := by
  intro m
  induction m with
  | zero => intro h _; omega
  | succ m ih =>
    intro hkm miss
    simp only [acceptedLoop]
    by_cases hk' : k = m + 1
    · subst hk'
      rw [if_pos hit]
    · rw [if_neg (miss (m + 1) (by omega) le_rfl)]
      exact ih (by omega) (fun j hj1 hj2 => miss j hj1 (by omega))

lemma acceptedLoop_eq_zero (g : ℕ) (w : ℚ) :
    ∀ m, (∀ j, 1 ≤ j → j ≤ m →
        ¬(gridFraction g j - 1/10 < w ∧ w < gridFraction g j + 1/10)) →
      acceptedLoop g w m = 0 := by
  intro m
  induction m with
  | zero => intro _; rfl
  | succ m ih =>
    intro miss
    simp only [acceptedLoop]
    rw [if_neg (miss (m + 1) (by omega) le_rfl)]
    exact ih (fun j h1 h2 => miss j h1 (by omega))

lemma acceptedLoop_cases (g : ℕ) (w : ℚ) :
    ∀ m, acceptedLoop g w m = 0 ∨
      ∃ k, 1 ≤ k ∧ k ≤ m ∧ acceptedLoop g w m = gridFraction g k := by
  intro m
  induction m with
  | zero => left; rfl
  | succ m ih =>
    simp only [acceptedLoop]
    split_ifs with hcond
    · right
      exact ⟨m + 1, by omega, le_rfl, rfl⟩
    · rcases ih with h | ⟨k, h1, h2, h3⟩
      · left
        exact h
      · right
        exact ⟨k, h1, by omega, h3⟩

lemma getAcceptedColumnWidth_cases (g : ℕ) (w : ℚ) :
    getAcceptedColumnWidth g w = 0 ∨
      ∃ k, 1 ≤ k ∧ k ≤ g ∧ getAcceptedColumnWidth g w = gridFraction g k :=
  acceptedLoop_cases g w g

lemma hit_of_close (g k : ℕ) (w : ℚ)
    (hw : |w - 100 / (g : ℚ) * k| ≤ 1 / 10 ^ 7) :
    gridFraction g k - 1/10 < w ∧ w < gridFraction g k + 1/10 := by
  have hb := gridFraction_bounds g k
  rw [abs_le] at hw
  exact ⟨by linarith [hb.2, hw.1], by linarith [hb.1, hw.2]⟩

lemma miss_of_far (g j : ℕ) (t : ℤ) (w : ℚ) (hg1 : 1 ≤ g) (hg2 : g ≤ 999)
    (_hj1 : 1 ≤ j) (hne : (j : ℤ) ≠ t)
    (hw : |w - 100 / (g : ℚ) * (t : ℚ)| ≤ 1 / 10 ^ 7) :
    ¬(gridFraction g j - 1/10 < w ∧ w < gridFraction g j + 1/10) := by
  have hb := gridFraction_bounds g j
  have hgpos : (0 : ℚ) < (g : ℚ) := by
    have h : (1 : ℚ) ≤ (g : ℚ) := by exact_mod_cast hg1
    linarith
  have hg999 : (g : ℚ) ≤ 999 := by exact_mod_cast hg2
  have hspace : 100 / (999 : ℚ) ≤ 100 / (g : ℚ) := by
    rw [div_le_div_iff₀ (by norm_num) hgpos]
    linarith
  have hTnn : 0 ≤ 100 / (g : ℚ) := by positivity
  rw [abs_le] at hw
  rintro ⟨h1, h2⟩
  rcases lt_or_gt_of_ne hne with hlt | hgt
  · have hz : (j : ℤ) + 1 ≤ t := by omega
    have hc : (j : ℚ) + 1 ≤ (t : ℚ) := by exact_mod_cast hz
    have hmul : 100 / (g : ℚ) * ((j : ℚ) + 1) ≤ 100 / (g : ℚ) * (t : ℚ) :=
      mul_le_mul_of_nonneg_left hc hTnn
    have e : 100 / (g : ℚ) * ((j : ℚ) + 1) =
        100 / (g : ℚ) * (j : ℚ) + 100 / (g : ℚ) := by ring
    linarith [hb.2, hw.1]
  · have hz : t + 1 ≤ (j : ℤ) := by omega
    have hc : (t : ℚ) + 1 ≤ (j : ℚ) := by exact_mod_cast hz
    have hmul : 100 / (g : ℚ) * ((t : ℚ) + 1) ≤ 100 / (g : ℚ) * (j : ℚ) :=
      mul_le_mul_of_nonneg_left hc hTnn
    have e : 100 / (g : ℚ) * ((t : ℚ) + 1) =
        100 / (g : ℚ) * (t : ℚ) + 100 / (g : ℚ) := by ring
    linarith [hb.1, hw.2]

lemma getAcceptedColumnWidth_snap (g k : ℕ) (w : ℚ) (hg1 : 1 ≤ g)
    (hg2 : g ≤ 999) (hk1 : 1 ≤ k) (hkg : k ≤ g)
    (hw : |w - 100 / (g : ℚ) * k| ≤ 1 / 10 ^ 7) :
    getAcceptedColumnWidth g w = gridFraction g k := by
  have hw' : |w - 100 / (g : ℚ) * (((k : ℤ)) : ℚ)| ≤ 1 / 10 ^ 7 := by
    push_cast
    exact hw
  exact acceptedLoop_eq_of_hit g w k hk1 (hit_of_close g k w hw) g hkg
    (fun j hj1 _hj2 =>
      miss_of_far g j k w hg1 hg2 (by omega) (by omega) hw')

lemma getAcceptedColumnWidth_zero (g : ℕ) (hg1 : 1 ≤ g) (hg2 : g ≤ 1000) :
    getAcceptedColumnWidth g 0 = 0 := by
  by_cases hg3 : g ≤ 999
  · exact acceptedLoop_eq_zero g 0 g (fun j hj1 hj2 =>
      miss_of_far g j 0 0 hg1 hg3 hj1 (by omega) (by norm_num))
  · have hg4 : g = 1000 := by omega
    subst hg4
    apply acceptedLoop_eq_zero
    intro j hj1 hj2 hcon
    rw [gridFraction_1000] at hcon
    have hlt : (j : ℚ) < 1 := by linarith [hcon.1]
    have : j < 1 := by exact_mod_cast hlt
    omega

lemma getSmallestColumnWidth_eq (g : ℕ) (hg1 : 1 ≤ g) (hg2 : g ≤ 999) :
    getSmallestColumnWidth g = gridFraction g 1 := by
  have h1 : getRoundedColumnWidth (100 / (g : ℚ)) = gridFraction g 1 := by
    rw [gridFraction, Nat.cast_one, mul_one]
  rw [getSmallestColumnWidth, h1]
  apply getAcceptedColumnWidth_snap g 1 _ hg1 hg2 le_rfl hg1
  have hb := gridFraction_bounds g 1
  rw [abs_le]
  exact ⟨by linarith [hb.1], by linarith [hb.2]⟩

lemma gridFraction_one_pos (g : ℕ) (hg1 : 1 ≤ g) (hg2 : g ≤ 999) :
    0 < gridFraction g 1 := by
  have hb := (gridFraction_bounds g 1).1
  rw [Nat.cast_one, mul_one] at hb
  have hgpos : (0 : ℚ) < (g : ℚ) := by
    have h : (1 : ℚ) ≤ (g : ℚ) := by exact_mod_cast hg1
    linarith
  have hg999 : (g : ℚ) ≤ 999 := by exact_mod_cast hg2
  have hspace : 100 / (999 : ℚ) ≤ 100 / (g : ℚ) := by
    rw [div_le_div_iff₀ (by norm_num) hgpos]
    linarith
  linarith

/-! ### Claim theorems -/

/-- C9 (counterexample): for gridSize 3 the smallest column width is not the
integer 33 claimed by the spec. -/
theorem getSmallestColumnWidth_three_ne_33 : getSmallestColumnWidth 3 ≠ 33 := by
  norm_num [getSmallestColumnWidth, getAcceptedColumnWidth, acceptedLoop,
    gridFraction, getRoundedColumnWidth, jsToFixed, jsRound]

/-- C9 (amended): `getSmallestColumnWidth` returns `8.33333333` for gridSize 12
and `33.33333333` (not `33`) for gridSize 3. -/
theorem getSmallestColumnWidth_values :
    getSmallestColumnWidth 12 = 833333333 / 100000000 ∧
      getSmallestColumnWidth 3 = 3333333333 / 100000000 := by
  norm_num [getSmallestColumnWidth, getAcceptedColumnWidth, acceptedLoop,
    gridFraction, getRoundedColumnWidth, jsToFixed, jsRound]

/-- C6: `resizeColumn` does not mutate any width when the requested width
equals the column's current (snapped) width or lies below the smallest
column width. -/
theorem resizeColumn_noop_on_equal_or_small (g : ℕ) (widths : List ℚ)
    (column : ℕ) (width : ℚ) (shrinkableColumn : Option ℕ)
    (h : width = getColumnWidth g widths column ∨
      width < getSmallestColumnWidth g) :
    resizeColumn g widths column width shrinkableColumn = widths := by
  have hc : getColumnWidth g widths column = width ∨
      width < getSmallestColumnWidth g := by
    rcases h with h | h
    · exact Or.inl h.symm
    · exact Or.inr h
  simp only [resizeColumn]
  rw [if_pos hc]

/-- C6 witness: requesting the current width of column 0 in a 50/50 row leaves
the row unchanged. -/
theorem resizeColumn_noop_on_equal_or_small_witness :
    ((50 : ℚ) = getColumnWidth 12 [50, 50] 0 ∨
        (50 : ℚ) < getSmallestColumnWidth 12) ∧
      resizeColumn 12 [50, 50] 0 50 (some 1) = [50, 50] :=
  ⟨Or.inl (by norm_num [getColumnWidth, getAcceptedColumnWidth, acceptedLoop,
      gridFraction, getRoundedColumnWidth, jsToFixed, jsRound]),
    resizeColumn_noop_on_equal_or_small 12 [50, 50] 0 50 (some 1)
      (Or.inl (by norm_num [getColumnWidth, getAcceptedColumnWidth, acceptedLoop,
        gridFraction, getRoundedColumnWidth, jsToFixed, jsRound]))⟩

/-- C3 (counterexample): with no donor supplied, `resizeColumn` is not a
no-op — it still commits the dragged column's new width.  Here column 0 of a
50/50 row is resized to `33.33333333` with donor `none` and its width
changes. -/
theorem resizeColumn_no_donor_counterexample :
    resizeColumn 12 [50, 50] 0 (3333333333 / 100000000) none =
        [3333333333 / 100000000, 50] ∧
      (3333333333 / 100000000 : ℚ) ≠ 50 := by
  norm_num [resizeColumn, updateColumnWidth, getColumnWidth, getSmallestColumnWidth,
    getAcceptedColumnWidth, acceptedLoop, gridFraction, getRoundedColumnWidth,
    jsToFixed, jsRound]

/-- C3 (amended): with no donor supplied, the donor-shrinking step is skipped
but the dragged column is still updated: the call no-ops exactly when the
requested width equals the current width or is below the smallest column
width, and otherwise sets the dragged column's width to `width`. -/
theorem resizeColumn_no_donor (g : ℕ) (widths : List ℚ) (column : ℕ)
    (width : ℚ) :
    resizeColumn g widths column width none =
      if getColumnWidth g widths column = width ∨
          width < getSmallestColumnWidth g then widths
      else widths.set column width := by
  simp only [resizeColumn, updateColumnWidth]

/-- C5: with a donor present, if the snapped compensating width equals the
donor's current width or falls below the smallest column width, the whole
operation aborts and no width is mutated. -/
theorem resizeColumn_abort_atomic (g : ℕ) (widths : List ℚ) (column s : ℕ)
    (width : ℚ)
    (h : getColumnWidth g widths s =
          getAcceptedColumnWidth g (getColumnWidth g widths s +
            -(jsToFixed 8 (width - getColumnWidth g widths column))) ∨
        getAcceptedColumnWidth g (getColumnWidth g widths s +
            -(jsToFixed 8 (width - getColumnWidth g widths column))) <
          getSmallestColumnWidth g) :
    resizeColumn g widths column width (some s) = widths := by
  by_cases hc : getColumnWidth g widths column = width ∨
      width < getSmallestColumnWidth g
  · simp only [resizeColumn]
    rw [if_pos hc]
  · simp only [resizeColumn]
    rw [if_neg hc]
    exact if_pos h

/-- C5 witness: growing column 0 of a 50/50 row to width 100 would shrink the
donor to 0, which is below the minimum, so nothing changes. -/
theorem resizeColumn_abort_atomic_witness :
    (getAcceptedColumnWidth 12 (getColumnWidth 12 [50, 50] 1 +
          -(jsToFixed 8 (100 - getColumnWidth 12 [50, 50] 0))) <
        getSmallestColumnWidth 12) ∧
      resizeColumn 12 [50, 50] 0 100 (some 1) = [50, 50] :=
  ⟨by norm_num [getColumnWidth, getSmallestColumnWidth, getAcceptedColumnWidth,
      acceptedLoop, gridFraction, getRoundedColumnWidth, jsToFixed, jsRound],
    resizeColumn_abort_atomic 12 [50, 50] 0 1 100
      (Or.inr (by norm_num [getColumnWidth, getSmallestColumnWidth,
        getAcceptedColumnWidth, acceptedLoop, gridFraction,
        getRoundedColumnWidth, jsToFixed, jsRound]))⟩

/-- C8 (counterexample): `getAcceptedColumnWidth` is not idempotent for every
grid size.  For gridSize 1001 the `±0.1` snap windows of neighbouring grid
fractions overlap: `99.85` snaps to `99.9000999` (candidate 1000/1001), which
itself lies inside the window of candidate 1001/1001 and re-snaps to `100`. -/
theorem getAcceptedColumnWidth_not_idempotent :
    getAcceptedColumnWidth 1001 (getAcceptedColumnWidth 1001 (1997 / 20)) ≠
      getAcceptedColumnWidth 1001 (1997 / 20) := by
  have h1 : getAcceptedColumnWidth 1001 (1997 / 20) = 9990009990 / 100000000 := by
    rw [getAcceptedColumnWidth, acceptedLoop_eval]
    norm_num [gridFraction, getRoundedColumnWidth, jsToFixed, jsRound]
    rw [acceptedLoop_eval]
    norm_num [gridFraction, getRoundedColumnWidth, jsToFixed, jsRound]
  have h2 : getAcceptedColumnWidth 1001 (9990009990 / 100000000) = 100 := by
    rw [getAcceptedColumnWidth, acceptedLoop_eval]
    norm_num [gridFraction, getRoundedColumnWidth, jsToFixed, jsRound]
  rw [h1, h2]
  norm_num

/-- C7: `determineMaxGhostWidth` pairs the position of the first `"left"`
candidate with the position of the last `"right"` candidate, and fails
(`none`, a thrown `TypeError` in the source) whenever either tagged subset is
empty. -/
theorem determineMaxGhostWidth_spec (columnWidths : List ColumnWidth) :
    (∀ l r,
        (columnWidths.filter fun width => width.forColumn = "left").head? = some l →
        (columnWidths.filter fun width => width.forColumn = "right").getLast? = some r →
        determineMaxGhostWidth columnWidths = some ⟨l.position, r.position⟩) ∧
      ((columnWidths.filter fun width => width.forColumn = "left") = [] ∨
          (columnWidths.filter fun width => width.forColumn = "right") = [] →
        determineMaxGhostWidth columnWidths = none) := by
  constructor
  · intro l r hl hr
    simp only [determineMaxGhostWidth, hl, hr]
  · intro h
    rcases h with h | h
    · simp [determineMaxGhostWidth, h]
    · cases hh : (columnWidths.filter fun width => width.forColumn = "left").head? <;>
        simp [determineMaxGhostWidth, h, hh]

/-- C7 witness: a two-candidate list produces the first-left / last-right
positions. -/
theorem determineMaxGhostWidth_spec_witness :
    determineMaxGhostWidth
        [⟨"left", "12/12", 5, 100⟩, ⟨"right", "1/12", 9, 10⟩] =
      some ⟨5, 9⟩ :=
  (determineMaxGhostWidth_spec _).1 ⟨"left", "12/12", 5, 100⟩
    ⟨"right", "1/12", 9, 10⟩ rfl rfl

lemma getAdjacentColumn_eq_none {α : Type} (children : List α)
    (currentIndex : ℕ) (direction : ℤ) :
    getAdjacentColumn children currentIndex direction = none ↔
      ((currentIndex : ℤ) + direction < 0 ∨
        (children.length : ℤ) ≤ (currentIndex : ℤ) + direction) := by
  unfold getAdjacentColumn
  split_ifs with h
  · rw [List.get?_eq_none]
    omega
  · exact ⟨fun _ => Or.inl (by omega), fun _ => rfl⟩

/-- C10: `getAdjacentColumn` returns `none` exactly when the index plus the
direction offset falls outside the child list, and `determineColumnWidths`
called on the last column of a row (whose right neighbour is therefore
missing) is undefined (`none`). -/
theorem getAdjacentColumn_bounds_and_determineColumnWidths_undefined
    (children : List ColumnGeometry) (currentIndex : ℕ) (direction : ℤ)
    (g : ℕ) (groupPosition : GroupPositionCache) :
    (getAdjacentColumn children currentIndex direction = none ↔
        ((currentIndex : ℤ) + direction < 0 ∨
          (children.length : ℤ) ≤ (currentIndex : ℤ) + direction)) ∧
      (currentIndex + 1 = children.length →
        determineColumnWidths g children currentIndex groupPosition = none) := by
  refine ⟨getAdjacentColumn_eq_none children currentIndex direction, fun h => ?_⟩
  have hnone : getAdjacentColumn children currentIndex 1 = none :=
    (getAdjacentColumn_eq_none children currentIndex 1).mpr (Or.inr (by omega))
  simp only [determineColumnWidths, hnone]

/-- C10 witness: on a one-column row, column 0 has no right neighbour and
`determineColumnWidths` is undefined. -/
theorem getAdjacentColumn_bounds_and_determineColumnWidths_undefined_witness :
    determineColumnWidths 12 [⟨0, 0, 100⟩] 0 ⟨0, 1200⟩ = none :=
  (getAdjacentColumn_bounds_and_determineColumnWidths_undefined
      [⟨0, 0, 100⟩] 0 1 12 ⟨0, 1200⟩).2 rfl

/-- C1 (code bug): with `currentPos` at or beyond the handle position and two
records appended to `history.left` (most recent last), the function returns
`adjustedColumn` from the most recent record but `modifyColumnInPair` from the
*oldest* record: the source's first `history.left.reverse()[0]` reverses the
array in place, so its second `history.left.reverse()[0]` reads the restored
original order.  The claim that both fields come verbatim from the single most
recent record fails whenever the two records disagree. -/
theorem determineAdjustedColumn_mixes_history_records :
    determineAdjustedColumn 12 [50, 50] 200 0 ⟨0, 0, 100⟩
        ⟨[⟨some 0, "left"⟩, ⟨some 1, "right"⟩], []⟩ =
      (some 1, "left", some "left") ∧
      List.getLast? [(⟨some 0, "left"⟩ : ResizeHistoryItem), ⟨some 1, "right"⟩] =
        some ⟨some 1, "right"⟩ := by
  constructor
  · norm_num [determineAdjustedColumn, List.headI]
  · rfl

/-- C4: if every column of the row is at least the smallest column width,
then no `resizeColumn` call — committing or not — leaves any column strictly
below the smallest column width. -/
theorem resizeColumn_respects_min_width (g : ℕ) (widths : List ℚ)
    (column : ℕ) (width : ℚ) (shrinkableColumn : Option ℕ)
    (h : ∀ i, i < widths.length → getSmallestColumnWidth g ≤ widths.getD i 0) :
    ∀ i, i < widths.length →
      getSmallestColumnWidth g ≤
        (resizeColumn g widths column width shrinkableColumn).getD i 0 := by
  intro i hi
  by_cases hc : getColumnWidth g widths column = width ∨
      width < getSmallestColumnWidth g
  · simp only [resizeColumn]
    rw [if_pos hc]
    exact h i hi
  · have hw : getSmallestColumnWidth g ≤ width := by
      push_neg at hc
      exact hc.2
    simp only [resizeColumn]
    rw [if_neg hc]
    cases shrinkableColumn with
    | none =>
      simp only [updateColumnWidth]
      rw [getD_set]
      split_ifs with hset
      · exact hw
      · exact h i hi
    | some s =>
      dsimp only
      split_ifs with hinner
      · exact h i hi
      · push_neg at hinner
        have hss := hinner.2
        simp only [updateColumnWidth]
        rw [getD_set]
        split_ifs with h1
        · exact hw
        · rw [getD_set]
          split_ifs with h2
          · exact hss
          · exact h i hi

/-- C4 witness: growing column 0 of a 50/50 twelve-unit row to
`58.33333333` keeps every column at or above the smallest width. -/
theorem resizeColumn_respects_min_width_witness :
    getSmallestColumnWidth 12 ≤
      (resizeColumn 12 [50, 50] 0 (5833333333 / 100000000) (some 1)).getD 0 0 :=
  resizeColumn_respects_min_width 12 [50, 50] 0 (5833333333 / 100000000) (some 1)
    (by
      intro i hi
      have h2 : i < 2 := by simpa using hi
      interval_cases i <;>
        norm_num [getSmallestColumnWidth, getAcceptedColumnWidth, acceptedLoop,
          gridFraction, getRoundedColumnWidth, jsToFixed, jsRound])
    0 (by norm_num)

/-- C8 (amended): `getAcceptedColumnWidth` is idempotent for every
configured grid size between 1 and 1000 (for larger grid sizes the `±0.1`
snap windows of neighbouring fractions overlap and idempotence fails, see the
counterexample at grid size 1001). -/
theorem getAcceptedColumnWidth_idempotent (g : ℕ) (w : ℚ)
    (hg1 : 1 ≤ g) (hg2 : g ≤ 1000) :
    getAcceptedColumnWidth g (getAcceptedColumnWidth g w) =
      getAcceptedColumnWidth g w := by
  rcases getAcceptedColumnWidth_cases g w with h | ⟨k, hk1, hkg, h⟩
  · rw [h]
    exact getAcceptedColumnWidth_zero g hg1 hg2
  · rw [h]
    by_cases hg3 : g ≤ 999
    · apply getAcceptedColumnWidth_snap g k _ hg1 hg3 hk1 hkg
      have hb := gridFraction_bounds g k
      rw [abs_le]
      exact ⟨by linarith [hb.1], by linarith [hb.2]⟩
    · have hg4 : g = 1000 := by omega
      subst hg4
      have hloop : acceptedLoop 1000 ((k : ℚ) / 10) 1000 = gridFraction 1000 k := by
        apply acceptedLoop_eq_of_hit 1000 _ k hk1 ?_ 1000 hkg ?_
        · rw [gridFraction_1000]
          constructor <;> norm_num
        · intro j hj1 _hj2 hcon
          rw [gridFraction_1000] at hcon
          have hjk : (j : ℚ) < (k : ℚ) + 1 := by linarith [hcon.1]
          have : j < k + 1 := by exact_mod_cast hjk
          omega
      rw [gridFraction_1000, getAcceptedColumnWidth, hloop, gridFraction_1000]

/-- C8 witness: at grid size 12 snapping `49.95` twice equals snapping it
once. -/
theorem getAcceptedColumnWidth_idempotent_witness :
    getAcceptedColumnWidth 12 (getAcceptedColumnWidth 12 (999 / 20)) =
      getAcceptedColumnWidth 12 (999 / 20) :=
  getAcceptedColumnWidth_idempotent 12 (999 / 20) (by norm_num) (by norm_num)

/-- C2 (counterexample): the row-sum invariant does not survive *every*
`resizeColumn` call.  On the 50/50 twelve-unit row, requesting the raw
(unsnapped) width `41.6` with the other column as donor commits both updates
and the widths then sum to `99.93333333`, outside the `1e-6` tolerance. -/
theorem resizeColumn_sum_counterexample :
    (resizeColumn 12 [50, 50] 0 (208 / 5) (some 1)).sum = 9993333333 / 100000000 ∧
      ¬|(9993333333 / 100000000 : ℚ) - 100| ≤ 1 / 10 ^ 6 := by
  constructor
  · norm_num [resizeColumn, updateColumnWidth, getColumnWidth,
      getSmallestColumnWidth, getAcceptedColumnWidth, acceptedLoop, gridFraction,
      getRoundedColumnWidth, jsToFixed, jsRound]
  · rw [abs_le]
    norm_num

/-- C2 (amended): for grid sizes up to 999, on a row whose stored widths are
accepted grid fractions summing exactly to 100, a `resizeColumn` call whose
requested width is an accepted grid fraction and whose donor is a column of
the row other than the dragged one leaves the row sum within `1e-6` of 100
(whether it commits both updates or no-ops). -/
theorem resizeColumn_preserves_sum (g : ℕ) (widths : List ℚ) (column s : ℕ)
    (width : ℚ) (hg1 : 1 ≤ g) (hg2 : g ≤ 999)
    (hcol : column < widths.length) (hs : s < widths.length) (hne : s ≠ column)
    (hW : ∀ i, i < widths.length →
      ∃ k, 1 ≤ k ∧ k ≤ g ∧ widths.getD i 0 = gridFraction g k)
    (hwidth : ∃ k, 1 ≤ k ∧ k ≤ g ∧ width = gridFraction g k)
    (hsum : widths.sum = 100) :
    |(resizeColumn g widths column width (some s)).sum - 100| ≤ 1 / 10 ^ 6 := by
  obtain ⟨kc, hkc1, hkcg, hwc⟩ := hW column hcol
  obtain ⟨ks, hks1, hksg, hws⟩ := hW s hs
  obtain ⟨kw, hkw1, hkwg, hwv⟩ := hwidth
  have hbc := gridFraction_bounds g kc
  have hbs := gridFraction_bounds g ks
  have hbw := gridFraction_bounds g kw
  have hcur : getColumnWidth g widths column = gridFraction g kc := by
    rw [getColumnWidth, hwc]
    apply getAcceptedColumnWidth_snap g kc _ hg1 hg2 hkc1 hkcg
    rw [abs_le]
    exact ⟨by linarith [hbc.1], by linarith [hbc.2]⟩
  have hcurS : getColumnWidth g widths s = gridFraction g ks := by
    rw [getColumnWidth, hws]
    apply getAcceptedColumnWidth_snap g ks _ hg1 hg2 hks1 hksg
    rw [abs_le]
    exact ⟨by linarith [hbs.1], by linarith [hbs.2]⟩
  have hX : getColumnWidth g widths s +
      -jsToFixed 8 (width - getColumnWidth g widths column) =
      gridFraction g ks - gridFraction g kw + gridFraction g kc := by
    rw [hcur, hwv, jsToFixed_gridFraction_sub g kw kc, hcurS]
    ring
  simp only [resizeColumn, updateColumnWidth]
  split_ifs with h1 h2
  · rw [hsum]
    norm_num
  · rw [hsum]
    norm_num
  · push_neg at h2
    set t : ℤ := (ks : ℤ) - kw + kc with ht
    have hct : (t : ℚ) = (ks : ℚ) - kw + kc := by
      rw [ht]
      push_cast
      ring
    by_cases htr : 1 ≤ t ∧ t ≤ (g : ℤ)
    · have ht0 : (0 : ℤ) ≤ t := by omega
      have htn : ((t.toNat : ℤ)) = t := Int.toNat_of_nonneg ht0
      have ht1 : 1 ≤ t.toNat := by omega
      have htg : t.toNat ≤ g := by omega
      have hbt := gridFraction_bounds g t.toNat
      have hctn : ((t.toNat : ℕ) : ℚ) = (ks : ℚ) - kw + kc := by
        rw [← hct]
        exact_mod_cast congrArg (fun z : ℤ => (z : ℚ)) htn
      have e3 : 100 / (g : ℚ) * (t.toNat : ℚ) =
          100 / (g : ℚ) * ks - 100 / (g : ℚ) * kw + 100 / (g : ℚ) * kc := by
        rw [hctn]
        ring
      have hSS : getAcceptedColumnWidth g (getColumnWidth g widths s +
          -jsToFixed 8 (width - getColumnWidth g widths column)) =
          gridFraction g t.toNat := by
        rw [hX]
        apply getAcceptedColumnWidth_snap g t.toNat _ hg1 hg2 ht1 htg
        rw [abs_le]
        constructor
        · linarith [hbs.1, hbw.2, hbc.1]
        · linarith [hbs.2, hbw.1, hbc.2]
      rw [hSS]
      rw [sum_set_getD _ column width (by simpa using hcol)]
      rw [getD_set]
      rw [if_neg (fun hcontra => hne hcontra.1)]
      rw [sum_set_getD _ s _ hs]
      rw [hsum, hws, hwc, hwv]
      rw [abs_le]
      constructor
      · linarith [hbt.1]
      · linarith [hbt.2]
    · exfalso
      have hSS0 : getAcceptedColumnWidth g (getColumnWidth g widths s +
          -jsToFixed 8 (width - getColumnWidth g widths column)) = 0 := by
        rw [hX]
        apply acceptedLoop_eq_zero
        intro j hj1 hj2
        apply miss_of_far g j t _ hg1 hg2 hj1 (by omega)
        rw [abs_le]
        rw [hct]
        constructor
        · linarith [hbs.1, hbw.2, hbc.1]
        · linarith [hbs.2, hbw.1, hbc.2]
      rw [hSS0] at h2
      have hsm := getSmallestColumnWidth_eq g hg1 hg2
      have hpos := gridFraction_one_pos g hg1 hg2
      have := h2.2
      rw [hsm] at this
      linarith

/-- C2 witness: growing column 0 of the 50/50 twelve-unit row to the accepted
fraction `58.33333333` with column 1 as donor keeps the sum within `1e-6` of
100. -/
theorem resizeColumn_preserves_sum_witness :
    |(resizeColumn 12 [50, 50] 0 (5833333333 / 100000000) (some 1)).sum - 100| ≤
      1 / 10 ^ 6 :=
  resizeColumn_preserves_sum 12 [50, 50] 0 1 (5833333333 / 100000000)
    (by norm_num) (by norm_num) (by norm_num) (by norm_num) (by norm_num)
    (by
      intro i hi
      have h2 : i < 2 := by simpa using hi
      interval_cases i <;>
        exact ⟨6, by norm_num, by norm_num,
          by norm_num [gridFraction, getRoundedColumnWidth, jsToFixed, jsRound]⟩)
    ⟨7, by norm_num, by norm_num,
      by norm_num [gridFraction, getRoundedColumnWidth, jsToFixed, jsRound]⟩
    (by norm_num)

end Resizing
